import Mathlib

/-!
Verification of the Stock-Price-Report-Maker repository.

The development shallowly embeds the three Python modules:
  * `charts.py`    — OHLCV resampling (`aggregate_ohlcv`) and chart generation
                     (`generate_all_charts`);
  * `fetch_data.py` — fetching and `INSERT OR IGNORE` insertion of daily rows
                     (`fetch_and_insert_data`);
  * `database.py`  — the `UNIQUE(stock_id, date)` constraint, reflected here in
                     the behaviour of `insertOrIgnore`.

DataFrames become Lean lists of records; the SQL `REAL` price columns become
`ℚ` (only first/last/max/min are ever applied to them, so the embedding is
exact) and the SQL `INTEGER` volume column becomes `ℤ`; pandas `NaN` entries
become `Option.none`.
-/

/-- A calendar date, year/month/day. -/
structure Date where
  y : Nat
  m : Nat
  d : Nat
deriving DecidableEq, Repr

/-- Strict chronological order on dates (lexicographic year, month, day). -/
def dateLt (a b : Date) : Prop :=
  a.y < b.y ∨ (a.y = b.y ∧ (a.m < b.m ∨ (a.m = b.m ∧ a.d < b.d)))

instance (a b : Date) : Decidable (dateLt a b) := by
  unfold dateLt; exact inferInstance

/-- Non-strict chronological order on dates. -/
def dateLe (a b : Date) : Prop := dateLt a b ∨ a = b

instance (a b : Date) : Decidable (dateLe a b) := by
  unfold dateLe; exact inferInstance

/-- Gregorian leap-year rule, as used by pandas timestamps for month ends. -/
def isLeapYear (y : Nat) : Bool :=
  (y % 4 == 0 && y % 100 != 0) || y % 400 == 0

/-- Number of days in a month, for computing calendar period end dates. -/
def daysInMonth (y m : Nat) : Nat :=
  if m = 2 then (if isLeapYear y then 29 else 28)
  else if m = 4 ∨ m = 6 ∨ m = 9 ∨ m = 11 then 30
  else 31

/-- The resampling rules of `charts.py`: the values `'M'`, `'Q'`, `'A'` of the
`TIME_PERIODS` dict. -/
inductive Rule where
  | M
  | Q
  | A
deriving DecidableEq, Repr

/-- `TIME_PERIODS` from `charts.py`: timeframe name to pandas resampling rule. -/
def TIME_PERIODS : List (String × Rule) :=
  [("monthly", Rule.M), ("quarterly", Rule.Q), ("annual", Rule.A)]

/-- The calendar bucket a date falls in under a rule, encoded as a `Nat` so
that consecutive buckets are consecutive numbers (as pandas period indexes). -/
def bucketOf (rule : Rule) (d : Date) : Nat :=
  match rule with
  | Rule.M => d.y * 12 + (d.m - 1)
  | Rule.Q => d.y * 4 + (d.m - 1) / 3
  | Rule.A => d.y

/-- The calendar end date of a bucket: month end, quarter end (Mar 31 / Jun 30 /
Sep 30 / Dec 31) or year end (Dec 31), exactly the right-closed right-labelled
bin labels pandas uses for `'M'`, `'Q'`, `'A'`. -/
def periodEndDate (rule : Rule) (p : Nat) : Date :=
  match rule with
  | Rule.M => ⟨p / 12, p % 12 + 1, daysInMonth (p / 12) (p % 12 + 1)⟩
  | Rule.Q => ⟨p / 4, (p % 4 + 1) * 3, daysInMonth (p / 4) ((p % 4 + 1) * 3)⟩
  | Rule.A => ⟨p, 12, 31⟩

/-- One row of the daily DataFrame handed to `aggregate_ohlcv` (the per-stock
slice of the `stock_data` join): date plus OHLCV.  The SQL schema declares all
five value columns `NOT NULL`, so they are total here.  `open` is a Lean
keyword, hence the field name `open_`. -/
structure DailyRow where
  date : Date
  open_ : ℚ
  high : ℚ
  low : ℚ
  close : ℚ
  volume : ℤ
deriving DecidableEq, Repr

/-- One row of the resampled DataFrame.  Aggregating an empty bin gives `NaN`
for `first`/`max`/`min`/`last` — modelled as `none` — while pandas `sum` of an
empty bin is `0`, so `volume` is always `some`. -/
structure AggRow where
  date : Date
  open_ : Option ℚ
  high : Option ℚ
  low : Option ℚ
  close : Option ℚ
  volume : Option ℤ
deriving DecidableEq, Repr

/-- `max` of a list of values, `none` when empty: pandas `'max'` aggregation. -/
def listMax {α : Type} [LinearOrder α] : List α → Option α
  | [] => none
  | x :: xs => some (xs.foldl max x)

/-- `min` of a list of values, `none` when empty: pandas `'min'` aggregation. -/
def listMin {α : Type} [LinearOrder α] : List α → Option α
  | [] => none
  | x :: xs => some (xs.foldl min x)

/-- Minimum of a list of naturals (0 for the empty list; only used nonempty). -/
def natListMin : List Nat → Nat
  | [] => 0
  | x :: xs => xs.foldl min x

/-- Maximum of a list of naturals. -/
def natListMax : List Nat → Nat
  | [] => 0
  | x :: xs => xs.foldl max x

/-- The rows of a daily frame falling in bucket `p` of `rule`, in frame order. -/
def bucketRows (df : List DailyRow) (rule : Rule) (p : Nat) : List DailyRow :=
  df.filter (fun r => bucketOf rule r.date == p)

/-- Aggregation of one resample bin under the `agg_logic` dict of
`aggregate_ohlcv`: `open: first, high: max, low: min, close: last,
volume: sum`, the bin labelled with its period end date.  An empty bin gives
`none` for the four price fields and `some 0` for the volume, matching pandas
(`sum` over an empty bin has `min_count=0`, hence `0`, not `NaN`). -/
def aggBucket (df : List DailyRow) (rule : Rule) (p : Nat) : AggRow :=
  let b := bucketRows df rule p
  { date := periodEndDate rule p
    open_ := b.head?.map (fun r => r.open_)
    high := listMax (b.map (fun r => r.high))
    low := listMin (b.map (fun r => r.low))
    close := b.getLast?.map (fun r => r.close)
    volume := some ((b.map (fun r => r.volume)).sum) }

/-- `df.set_index('date')`: on the list-of-records representation the rows are
unchanged (the date merely stops being an ordinary column); pandas `set_index`
returns a new frame and leaves its argument untouched. -/
def set_index (df : List DailyRow) : List DailyRow := df

/-- `df_indexed.resample(rule).apply(agg_logic)`: pandas forms consecutive
calendar bins covering the span from the bin of the earliest index entry to
the bin of the latest one — including intermediate empty bins — and aggregates
each; an empty frame resamples to an empty frame. -/
def resample_apply (df : List DailyRow) (rule : Rule) : List AggRow :=
  match df with
  | [] => []
  | r :: rs =>
    let ps := (r :: rs).map (fun x => bucketOf rule x.date)
    let lo := natListMin ps
    let hi := natListMax ps
    (List.range (hi + 1 - lo)).map (fun i => aggBucket (r :: rs) rule (lo + i))

/-- `resampled_df.dropna(how='all', inplace=True)`: keep exactly the rows in
which at least one of the five value columns is non-null. -/
def dropna_all (l : List AggRow) : List AggRow :=
  l.filter (fun r =>
    !(r.open_.isNone && r.high.isNone && r.low.isNone && r.close.isNone &&
      r.volume.isNone))

/-- `resampled_df.reset_index()`: the period-end label becomes an ordinary
column again; on the list representation the rows are unchanged. -/
def reset_index (l : List AggRow) : List AggRow := l

/-- `aggregate_ohlcv(df, rule)` from `charts.py`: set the date as index,
resample with `agg_logic`, drop all-null rows, reset the index. -/
def aggregate_ohlcv (df : List DailyRow) (rule : Rule) : List AggRow :=
  reset_index (dropna_all (resample_apply (set_index df) rule))

/-! ### The fetcher (`fetch_data.py`) and the `stock_data` table -/

/-- One persisted row of the `stock_data` table (`database.py` line 54): the
surrogate `id` column plays no role in any claim and is omitted; the table
carries `UNIQUE(stock_id, date)`. -/
structure DBRow where
  stock_id : Nat
  date : Date
  open_ : ℚ
  high : ℚ
  low : ℚ
  close : ℚ
  volume : ℤ
deriving DecidableEq, Repr

/-- A `(stock, date)` key is present in the table. -/
def keyMem (sid : Nat) (d : Date) (db : List DBRow) : Prop :=
  ∃ x ∈ db, x.stock_id = sid ∧ x.date = d

instance (sid : Nat) (d : Date) (db : List DBRow) : Decidable (keyMem sid d db) := by
  unfold keyMem; exact inferInstance

/-- The table has at most one row per `(stock_id, date)` pair — the
`UNIQUE(stock_id, date)` constraint of `database.py`. -/
def UniqueKeys (db : List DBRow) : Prop :=
  db.Pairwise (fun a b => ¬(a.stock_id = b.stock_id ∧ a.date = b.date))

/-- `INSERT OR IGNORE INTO stock_data` of one row: a no-op when a row with the
same `(stock_id, date)` key exists (the `UNIQUE` constraint fires and the
conflict is ignored), an append otherwise. -/
def insertOrIgnore (db : List DBRow) (r : DBRow) : List DBRow :=
  if db.any (fun x => x.stock_id == r.stock_id && x.date == r.date) then db
  else db ++ [r]

/-- `cursor.executemany(insert_query, data_tuples)`: insert-or-ignore each
tuple in order. -/
def executemany (db : List DBRow) (rows : List DBRow) : List DBRow :=
  rows.foldl insertOrIgnore db

/-- One row of the raw DataFrame returned by `yf.download` after the column
rename: any of the five value fields may be missing (`NaN`). -/
structure RawRow where
  date : Date
  open_ : Option ℚ
  high : Option ℚ
  low : Option ℚ
  close : Option ℚ
  volume : Option ℤ
deriving DecidableEq, Repr

/-- `data.dropna()` plus `data['stock_id'] = stock_id` plus the tuple build of
`fetch_data.py` lines 79–89: a raw row survives iff every field is present,
and is tagged with the owning stock's id. -/
def cleanRow (sid : Nat) (r : RawRow) : Option DBRow :=
  match r.open_, r.high, r.low, r.close, r.volume with
  | some o, some h, some l, some c, some v => some ⟨sid, r.date, o, h, l, c, v⟩
  | _, _, _, _, _ => none

/-- The cleaned, stock-tagged tuples actually handed to `executemany`. -/
def cleanRows (sid : Nat) (rows : List RawRow) : List DBRow :=
  rows.filterMap (cleanRow sid)

/-- What the provider does for one ticker: raise an exception somewhere in the
per-stock body (network error, malformed payload), or return a frame of raw
rows (possibly empty). -/
inductive Response where
  | failure
  | data (rows : List RawRow)
deriving DecidableEq

/-- The tuples a response contributes to the table: none on an exception or an
empty download, the cleaned stock-tagged rows otherwise. -/
def respRows (sid : Nat) (resp : Response) : List DBRow :=
  match resp with
  | Response.failure => []
  | Response.data rows => if rows.isEmpty then [] else cleanRows sid rows

/-- The body of the per-stock loop of `fetch_and_insert_data` (lines 50–105):
an exception is caught by the inner `except Exception` and only logged, an
empty download is skipped, and otherwise the cleaned rows are inserted with
`INSERT OR IGNORE`. -/
def processStock (db : List DBRow) (sid : Nat) (resp : Response) : List DBRow :=
  match resp with
  | Response.failure => db
  | Response.data rows =>
    if rows.isEmpty then db
    else executemany db (cleanRows sid rows)

/-- `get_stocks_from_db` of `fetch_data.py`: when the database file is missing
an error is printed and `[]` is returned; otherwise the roster rows of the
`stocks` table. -/
def get_stocks_from_db (dbExists : Bool) (stocks : List (Nat × String)) :
    List (Nat × String) :=
  if dbExists then stocks else []

/-- One iteration of the fetcher's per-stock loop, as a fold step over the
roster. -/
def fetchStep (responses : String → Response) (d : List DBRow)
    (st : Nat × String) : List DBRow :=
  processStock d st.1 (responses st.2)

/-- `fetch_and_insert_data` of `fetch_data.py`, as a function from the prior
`stock_data` table to the new one.  `responses` records what the provider
returns per ticker (identical across re-runs when comparing two runs).  An
empty roster — in particular a missing database file — returns with no
insertion. -/
def fetch_and_insert_data (dbExists : Bool) (stocks : List (Nat × String))
    (responses : String → Response) (db : List DBRow) : List DBRow :=
  let stocks_list := get_stocks_from_db dbExists stocks
  if stocks_list.isEmpty then db
  else stocks_list.foldl (fetchStep responses) db

/-! ### Chart generation (`charts.py`) -/

/-- One row of the master DataFrame built by `fetch_data_from_db`: the join of
`stock_data` with `stocks`, carrying ticker and company name. -/
structure MRow where
  ticker : String
  company_name : String
  row : DailyRow

/-- Helper for `uniqueFirst`: keep the first occurrence of each element not
yet seen. -/
def uniqueFirstAux (seen : List String) : List String → List String
  | [] => []
  | x :: xs =>
    if seen.contains x then uniqueFirstAux seen xs
    else x :: uniqueFirstAux (x :: seen) xs

/-- `master_df['ticker'].unique()`: the distinct tickers in order of first
occurrence. -/
def uniqueFirst (l : List String) : List String := uniqueFirstAux [] l

/-- `master_df[master_df['ticker'] == ticker]`, projected to the daily data
columns: the one stock's daily frame handed to `aggregate_ohlcv`. -/
def stockRows (master : List MRow) (t : String) : List DailyRow :=
  (master.filter (fun r => r.ticker == t)).map (fun r => r.row)

/-- The `(ticker, timeframe, rule)` combinations visited by the two nested
loops of `generate_all_charts`, in visit order: tickers in first-occurrence
order, `TIME_PERIODS` entries within each ticker. -/
def allCombos (master : List MRow) : List (String × String × Rule) :=
  (uniqueFirst (master.map (fun r => r.ticker))).flatMap
    (fun t => TIME_PERIODS.map (fun p => (t, p.1, p.2)))

/-- The nested chart loop of `generate_all_charts` over a list of remaining
combinations.  `fails t tf` says whether `create_candlestick_chart` raises for
that combination (e.g. `fig.write_html` fails).  Result: the list of chart
files written, as `(ticker, timeframe)` pairs, and whether the run finished
normally.  An empty aggregation is skipped with a log message and the loop
continues; there is no `try`/`except` around the chart call, so a raise
propagates and ends the whole run, keeping the files written so far. -/
def runCombos (master : List MRow) (fails : String → String → Bool) :
    List (String × String × Rule) → List (String × String) × Bool
  | [] => ([], true)
  | (t, tf, rule) :: rest =>
    if (aggregate_ohlcv (stockRows master t) rule).isEmpty then
      runCombos master fails rest
    else if fails t tf then ([], false)
    else
      let out := runCombos master fails rest
      ((t, tf) :: out.1, out.2)

/-- `generate_all_charts` of `charts.py`.  `dbExists = false` or an empty
`stock_data` table makes `fetch_data_from_db` return `None`, and the function
returns having rendered nothing. -/
def generate_all_charts (dbExists : Bool) (master : List MRow)
    (fails : String → String → Bool) : List (String × String) × Bool :=
  if dbExists = false ∨ master.isEmpty then ([], true)
  else runCombos master fails (allCombos master)

/-! ### A frame store, for the mutation claim about `aggregate_ohlcv` -/

/-- A pandas DataFrame object: either a daily frame or a resampled one. -/
inductive PFrame where
  | daily (rows : List DailyRow)
  | agg (rows : List AggRow)
deriving DecidableEq

/-- `aggregate_ohlcv` with the object identities of the frames made explicit:
the store is a list of frame objects and `i` the position of the input frame.
`df.set_index('date')` (without `inplace`) allocates a new frame, as does
`.resample(rule).apply(agg_logic)`; `dropna(how='all', inplace=True)`
overwrites the resampled frame in place; `reset_index()` allocates the result
frame.  Returns the new store and the position of the result frame. -/
def aggregate_ohlcv_st (h : List PFrame) (i : Nat) (rule : Rule) :
    List PFrame × Nat :=
  match h[i]? with
  | some (PFrame.daily df) =>
    let df_indexed := set_index df
    let h1 := h ++ [PFrame.daily df_indexed]
    let resampled := resample_apply df_indexed rule
    let h2 := h1 ++ [PFrame.agg resampled]
    let h3 := h2.set h1.length (PFrame.agg (dropna_all resampled))
    let h4 := h3 ++ [PFrame.agg (reset_index (dropna_all resampled))]
    (h4, h3.length)
  | _ => (h, i)

/-! ### Concrete data used in witnesses and counterexamples -/

/-- A daily bar for 2021-01-04: o=10, h=12, l=9, c=11, v=100. -/
def barJan4 : DailyRow := ⟨⟨2021, 1, 4⟩, 10, 12, 9, 11, 100⟩

/-- A daily bar for 2021-01-29: o=11, h=15, l=10, c=14, v=200. -/
def barJan29 : DailyRow := ⟨⟨2021, 1, 29⟩, 11, 15, 10, 14, 200⟩

/-- A daily bar for 2021-03-01: o=11, h=15, l=10, c=14, v=200. -/
def barMar1 : DailyRow := ⟨⟨2021, 3, 1⟩, 11, 15, 10, 14, 200⟩

/-- The January 2021 aggregate of the frame `[barJan4]`. -/
def aggJanSingle : AggRow :=
  ⟨⟨2021, 1, 31⟩, some 10, some 12, some 9, some 11, some 100⟩

/-- A master-frame row: ticker AAA holding `barJan4`. -/
def mRowA : MRow := ⟨"AAA", "A Co", barJan4⟩

/-- A master-frame row: ticker BBB holding `barJan29`. -/
def mRowB : MRow := ⟨"BBB", "B Co", barJan29⟩

/-- A failure pattern: rendering raises exactly for (AAA, monthly). -/
def failsAMonthly : String → String → Bool :=
  fun t tf => t == "AAA" && tf == "monthly"

/-- A raw provider row with no missing fields, for 2021-01-04. -/
def rawJan4 : RawRow := ⟨⟨2021, 1, 4⟩, some 10, some 12, some 9, some 11, some 100⟩

/-- A provider behaviour: ticker CCC raises, every other ticker returns one
good row. -/
def respW : String → Response :=
  fun t => if t == "CCC" then Response.failure else Response.data [rawJan4]

/-- A persisted row for stock 1 on 2021-01-04. -/
def dbr0 : DBRow := ⟨1, ⟨2021, 1, 4⟩, 10, 12, 9, 11, 100⟩

/-! ### Helper lemmas: folds computing maxima and minima -/

theorem foldl_max_mem {α : Type} [LinearOrder α] (xs : List α) (x : α) :
    xs.foldl max x ∈ x :: xs := by
  induction xs generalizing x with
  | nil => simp
  | cons a as ih =>
    simp only [List.foldl_cons]
    rcases List.mem_cons.mp (ih (max x a)) with h | h
    · rcases max_choice x a with h' | h' <;> rw [h'] at h ⊢ <;> simp [h]
    · simp [h]

theorem le_foldl_max {α : Type} [LinearOrder α] (xs : List α) (x : α) :
    ∀ y ∈ x :: xs, y ≤ xs.foldl max x := by
  induction xs generalizing x with
  | nil =>
    intro y hy
    simp only [List.mem_singleton] at hy
    simp [hy]
  | cons a as ih =>
    intro y hy
    simp only [List.foldl_cons]
    rcases List.mem_cons.mp hy with rfl | hy' 
    · exact le_trans (le_max_left y a) (ih (max y a) _ (List.mem_cons_self _ _))
    · rcases List.mem_cons.mp hy' with rfl | hy''
      · exact le_trans (le_max_right x y) (ih (max x y) _ (List.mem_cons_self _ _))
      · exact ih (max x a) y (List.mem_cons_of_mem _ hy'')

theorem foldl_min_mem {α : Type} [LinearOrder α] (xs : List α) (x : α) :
    xs.foldl min x ∈ x :: xs := by
  induction xs generalizing x with
  | nil => simp
  | cons a as ih =>
    simp only [List.foldl_cons]
    rcases List.mem_cons.mp (ih (min x a)) with h | h
    · rcases min_choice x a with h' | h' <;> rw [h'] at h ⊢ <;> simp [h]
    · simp [h]

theorem foldl_min_le {α : Type} [LinearOrder α] (xs : List α) (x : α) :
    ∀ y ∈ x :: xs, xs.foldl min x ≤ y := by
  induction xs generalizing x with
  | nil =>
    intro y hy
    simp only [List.mem_singleton] at hy
    simp [hy]
  | cons a as ih =>
    intro y hy
    simp only [List.foldl_cons]
    rcases List.mem_cons.mp hy with rfl | hy' 
    · exact le_trans (ih (min y a) _ (List.mem_cons_self _ _)) (min_le_left y a)
    · rcases List.mem_cons.mp hy' with rfl | hy''
      · exact le_trans (ih (min x y) _ (List.mem_cons_self _ _)) (min_le_right x y)
      · exact ih (min x a) y (List.mem_cons_of_mem _ hy'')

/-! ### Helper lemmas: dates, buckets and period ends -/

theorem dateLe_refl (a : Date) : dateLe a a := Or.inr rfl

theorem dateLe_of_dateLt {a b : Date} (h : dateLt a b) : dateLe a b := Or.inl h

theorem dateLt_irrefl (a : Date) : ¬dateLt a a := by
  simp only [dateLt]
  omega

/-- The bucket of a period's end date is that period again. -/
theorem bucketOf_periodEndDate (rule : Rule) (p : Nat) :
    bucketOf rule (periodEndDate rule p) = p := by
  cases rule <;> simp only [bucketOf, periodEndDate] <;> omega

/-- Later buckets have chronologically later end dates. -/
theorem periodEndDate_lt (rule : Rule) {p q : Nat} (h : p < q) :
    dateLt (periodEndDate rule p) (periodEndDate rule q) := by
  cases rule <;> simp only [periodEndDate, dateLt] <;> omega

/-- End-date labels are injective per rule. -/
theorem periodEndDate_inj (rule : Rule) {p q : Nat}
    (h : periodEndDate rule p = periodEndDate rule q) : p = q := by
  have hp := bucketOf_periodEndDate rule p
  rw [h, bucketOf_periodEndDate] at hp
  exact hp.symm

/-! ### Helper lemmas: the shape of `aggregate_ohlcv` -/

/-- Every row produced by resampling carries a non-null volume (pandas `sum`
of a bin is never `NaN`), so `dropna(how='all')` drops nothing. -/
theorem dropna_all_resample_apply (df : List DailyRow) (rule : Rule) :
    dropna_all (resample_apply df rule) = resample_apply df rule := by
  apply List.filter_eq_self.mpr
  intro r hr
  match df with
  | [] => simp [resample_apply] at hr
  | x :: xs =>
    simp only [resample_apply, List.mem_map] at hr
    obtain ⟨i, _, rfl⟩ := hr
    simp [aggBucket]

/-- `aggregate_ohlcv` is resampling: `set_index`, `dropna(how='all')` and
`reset_index` change nothing on this representation. -/
theorem aggregate_ohlcv_eq_resample (df : List DailyRow) (rule : Rule) :
    aggregate_ohlcv df rule = resample_apply df rule := by
  simp [aggregate_ohlcv, reset_index, set_index, dropna_all_resample_apply]

/-- The rows output by `aggregate_ohlcv` are exactly the aggregated buckets
`lo + i` for `i` below the span width. -/
theorem mem_aggregate_ohlcv {df : List DailyRow} {rule : Rule} {r : AggRow}
    (h : r ∈ aggregate_ohlcv df rule) :
    ∃ p, r = aggBucket df rule p := by
  rw [aggregate_ohlcv_eq_resample] at h
  match df with
  | [] => simp [resample_apply] at h
  | x :: xs =>
    simp only [resample_apply, List.mem_map] at h
    obtain ⟨i, _, rfl⟩ := h
    exact ⟨_, rfl⟩

/-- Bucket indexes of rows of the frame lie in the resampled span. -/
theorem bucket_index_bounds {x : DailyRow} {xs : List DailyRow} (rule : Rule)
    {d : DailyRow} (hd : d ∈ x :: xs) :
    natListMin ((x :: xs).map (fun r => bucketOf rule r.date)) ≤
        bucketOf rule d.date ∧
      bucketOf rule d.date ≤
        natListMax ((x :: xs).map (fun r => bucketOf rule r.date)) := by
  have hmem : bucketOf rule d.date ∈
      bucketOf rule x.date :: xs.map (fun r => bucketOf rule r.date) := by
    simpa using List.mem_map_of_mem (fun r => bucketOf rule r.date) hd
  constructor
  · exact foldl_min_le _ _ _ hmem
  · exact le_foldl_max _ _ _ hmem

/-- Every populated bucket appears among the rows of `aggregate_ohlcv`. -/
theorem aggBucket_mem_aggregate {df : List DailyRow} {rule : Rule} {p : Nat}
    (h : bucketRows df rule p ≠ []) :
    aggBucket df rule p ∈ aggregate_ohlcv df rule := by
  rw [aggregate_ohlcv_eq_resample]
  match df with
  | [] => simp [bucketRows] at h
  | x :: xs =>
    obtain ⟨d, hd, hp⟩ : ∃ d ∈ x :: xs, bucketOf rule d.date = p := by
      rcases List.exists_mem_of_ne_nil _ h with ⟨d, hd⟩
      simp only [bucketRows, List.mem_filter] at hd
      exact ⟨d, hd.1, by simpa using hd.2⟩
    obtain ⟨hlo, hhi⟩ := bucket_index_bounds rule hd
    rw [hp] at hlo hhi
    simp only [resample_apply, List.mem_map]
    refine ⟨p - natListMin ((x :: xs).map (fun r => bucketOf rule r.date)), ?_, ?_⟩
    · rw [List.mem_range]
      omega
    · congr 1
      omega

/-- In a strictly date-sorted list the head is chronologically first. -/
theorem pairwise_head_min {l : List DailyRow}
    (hp : l.Pairwise (fun a b => dateLt a.date b.date)) (hne : l ≠ []) :
    ∃ f, l.head? = some f ∧ f ∈ l ∧ ∀ y ∈ l, dateLe f.date y.date := by
  match l with
  | [] => exact absurd rfl hne
  | a :: t =>
    rcases List.pairwise_cons.mp hp with ⟨ha, -⟩
    refine ⟨a, rfl, List.mem_cons_self _ _, ?_⟩
    intro y hy
    rcases List.mem_cons.mp hy with rfl | hy'
    · exact dateLe_refl _
    · exact dateLe_of_dateLt (ha y hy')

/-- In a strictly date-sorted list the last element is chronologically last. -/
theorem pairwise_getLast_max {l : List DailyRow}
    (hp : l.Pairwise (fun a b => dateLt a.date b.date)) (hne : l ≠ []) :
    ∃ g, l.getLast? = some g ∧ g ∈ l ∧ ∀ y ∈ l, dateLe y.date g.date := by
  induction l with
  | nil => exact absurd rfl hne
  | cons a t ih =>
    match t, hp with
    | [], _ =>
      refine ⟨a, rfl, List.mem_cons_self _ _, ?_⟩
      intro y hy
      rcases List.mem_cons.mp hy with rfl | hy'
      · exact dateLe_refl _
      · simp at hy'
    | b :: t', hp =>
      rcases List.pairwise_cons.mp hp with ⟨ha, hp'⟩
      obtain ⟨g, hg1, hg2, hg3⟩ := ih hp' (List.cons_ne_nil _ _)
      refine ⟨g, ?_, List.mem_cons_of_mem _ hg2, ?_⟩
      · rw [List.getLast?_cons_cons]
        exact hg1
      · intro y hy
        rcases List.mem_cons.mp hy with rfl | hy'
        · exact dateLe_of_dateLt (ha g hg2)
        · exact hg3 y hy'

/-- Claim C1: for a date-sorted daily frame and each resampling rule, every
output row of `aggregate_ohlcv` whose bucket is populated has `open` from the
chronologically first row of the bucket, `close` from the chronologically last
row, `high` the maximum of the bucket's highs, `low` the minimum of the
bucket's lows, and `volume` the exact sum of the bucket's volumes. -/
theorem aggregate_ohlcv_bucket_fields (df : List DailyRow) (rule : Rule)
    (hsorted : df.Pairwise (fun a b => dateLt a.date b.date)) :
    ∀ r ∈ aggregate_ohlcv df rule,
      bucketRows df rule (bucketOf rule r.date) ≠ [] →
      (∃ f ∈ bucketRows df rule (bucketOf rule r.date),
        (∀ y ∈ bucketRows df rule (bucketOf rule r.date), dateLe f.date y.date) ∧
        r.open_ = some f.open_) ∧
      (∃ g ∈ bucketRows df rule (bucketOf rule r.date),
        (∀ y ∈ bucketRows df rule (bucketOf rule r.date), dateLe y.date g.date) ∧
        r.close = some g.close) ∧
      (∃ hb ∈ bucketRows df rule (bucketOf rule r.date),
        (∀ y ∈ bucketRows df rule (bucketOf rule r.date), y.high ≤ hb.high) ∧
        r.high = some hb.high) ∧
      (∃ lb ∈ bucketRows df rule (bucketOf rule r.date),
        (∀ y ∈ bucketRows df rule (bucketOf rule r.date), lb.low ≤ y.low) ∧
        r.low = some lb.low) ∧
      r.volume =
        some (((bucketRows df rule (bucketOf rule r.date)).map
          (fun y => y.volume)).sum) := by
  intro r hr hpop
  obtain ⟨p, rfl⟩ := mem_aggregate_ohlcv hr
  have hbp : bucketOf rule (aggBucket df rule p).date = p := by
    show bucketOf rule (periodEndDate rule p) = p
    exact bucketOf_periodEndDate rule p
  rw [hbp] at hpop ⊢
  have hbsorted : (bucketRows df rule p).Pairwise
      (fun a b => dateLt a.date b.date) := hsorted.filter _
  refine ⟨?_, ?_, ?_, ?_, rfl⟩
  · obtain ⟨f, hf1, hf2, hf3⟩ := pairwise_head_min hbsorted hpop
    refine ⟨f, hf2, hf3, ?_⟩
    show (bucketRows df rule p).head?.map (fun y => y.open_) = some f.open_
    rw [hf1, Option.map_some']
  · obtain ⟨g, hg1, hg2, hg3⟩ := pairwise_getLast_max hbsorted hpop
    refine ⟨g, hg2, hg3, ?_⟩
    show (bucketRows df rule p).getLast?.map (fun y => y.close) = some g.close
    rw [hg1, Option.map_some']
  · obtain ⟨u, us, hcons⟩ := List.exists_cons_of_ne_nil hpop
    have hmax : (us.map (fun y => y.high)).foldl max u.high ∈
        (bucketRows df rule p).map (fun y => y.high) := by
      rw [hcons, List.map_cons]
      exact foldl_max_mem _ _
    obtain ⟨hb, hbmem, hbh⟩ := List.mem_map.mp hmax
    refine ⟨hb, hbmem, ?_, ?_⟩
    · intro y hy
      have hymem : y.high ∈ u.high :: us.map (fun z => z.high) := by
        rw [← List.map_cons, ← hcons]
        exact List.mem_map_of_mem _ hy
      rw [hbh]
      exact le_foldl_max _ _ _ hymem
    · show listMax ((bucketRows df rule p).map (fun y => y.high)) = some hb.high
      rw [hcons, List.map_cons]
      simp only [listMax]
      rw [hbh]
  · obtain ⟨u, us, hcons⟩ := List.exists_cons_of_ne_nil hpop
    have hmin : (us.map (fun y => y.low)).foldl min u.low ∈
        (bucketRows df rule p).map (fun y => y.low) := by
      rw [hcons, List.map_cons]
      exact foldl_min_mem _ _
    obtain ⟨lb, lbmem, lbh⟩ := List.mem_map.mp hmin
    refine ⟨lb, lbmem, ?_, ?_⟩
    · intro y hy
      have hymem : y.low ∈ u.low :: us.map (fun z => z.low) := by
        rw [← List.map_cons, ← hcons]
        exact List.mem_map_of_mem _ hy
      rw [lbh]
      exact foldl_min_le _ _ _ hymem
    · show listMin ((bucketRows df rule p).map (fun y => y.low)) = some lb.low
      rw [hcons, List.map_cons]
      simp only [listMin]
      rw [lbh]

/-- Witness for claim C1, at the one-bar frame `[barJan4]` and its January
2021 output row. -/
theorem aggregate_ohlcv_bucket_fields_witness :
    (∃ f ∈ bucketRows [barJan4] Rule.M (bucketOf Rule.M aggJanSingle.date),
      (∀ y ∈ bucketRows [barJan4] Rule.M (bucketOf Rule.M aggJanSingle.date),
        dateLe f.date y.date) ∧
      aggJanSingle.open_ = some f.open_) ∧
    (∃ g ∈ bucketRows [barJan4] Rule.M (bucketOf Rule.M aggJanSingle.date),
      (∀ y ∈ bucketRows [barJan4] Rule.M (bucketOf Rule.M aggJanSingle.date),
        dateLe y.date g.date) ∧
      aggJanSingle.close = some g.close) ∧
    (∃ hb ∈ bucketRows [barJan4] Rule.M (bucketOf Rule.M aggJanSingle.date),
      (∀ y ∈ bucketRows [barJan4] Rule.M (bucketOf Rule.M aggJanSingle.date),
        y.high ≤ hb.high) ∧
      aggJanSingle.high = some hb.high) ∧
    (∃ lb ∈ bucketRows [barJan4] Rule.M (bucketOf Rule.M aggJanSingle.date),
      (∀ y ∈ bucketRows [barJan4] Rule.M (bucketOf Rule.M aggJanSingle.date),
        lb.low ≤ y.low) ∧
      aggJanSingle.low = some lb.low) ∧
    aggJanSingle.volume =
      some (((bucketRows [barJan4] Rule.M (bucketOf Rule.M aggJanSingle.date)).map
        (fun y => y.volume)).sum) :=
  aggregate_ohlcv_bucket_fields [barJan4] Rule.M (by decide) aggJanSingle
    (by decide) (by decide)

/-- Claim C4: for a date-sorted daily frame and each rule, the rows of
`aggregate_ohlcv` come out in chronological order, every populated bucket has
exactly one row carrying that bucket's calendar end date, and every row is
labelled with the calendar end date of its bucket. -/
theorem aggregate_ohlcv_ordered_labels (df : List DailyRow) (rule : Rule)
    (hsorted : df.Pairwise (fun a b => dateLt a.date b.date)) :
    (aggregate_ohlcv df rule).Pairwise (fun a b => dateLt a.date b.date) ∧
    (∀ p, bucketRows df rule p ≠ [] →
      ∃ r ∈ aggregate_ohlcv df rule,
        r.date = periodEndDate rule p ∧
        ∀ r' ∈ aggregate_ohlcv df rule, r'.date = periodEndDate rule p →
          r' = r) ∧
    (∀ r ∈ aggregate_ohlcv df rule,
      r.date = periodEndDate rule (bucketOf rule r.date)) := by
  refine ⟨?_, ?_, ?_⟩
  · rw [aggregate_ohlcv_eq_resample]
    match df with
    | [] => simp [resample_apply]
    | x :: xs =>
      simp only [resample_apply]
      rw [List.pairwise_map]
      exact (List.pairwise_lt_range _).imp
        (fun hij => periodEndDate_lt rule (by omega))
  · intro p hpop
    refine ⟨aggBucket df rule p, aggBucket_mem_aggregate hpop, rfl, ?_⟩
    intro r' hr' hdate
    obtain ⟨p', rfl⟩ := mem_aggregate_ohlcv hr'
    have hp' : periodEndDate rule p' = periodEndDate rule p := hdate
    rw [periodEndDate_inj rule hp']
  · intro r hr
    obtain ⟨p₀, rfl⟩ := mem_aggregate_ohlcv hr
    have hd : (aggBucket df rule p₀).date = periodEndDate rule p₀ := rfl
    rw [hd, bucketOf_periodEndDate]

/-- Witness for claim C4, at the two-bar January 2021 frame. -/
theorem aggregate_ohlcv_ordered_labels_witness :
    (aggregate_ohlcv [barJan4, barJan29] Rule.M).Pairwise
      (fun a b => dateLt a.date b.date) ∧
    (∀ p, bucketRows [barJan4, barJan29] Rule.M p ≠ [] →
      ∃ r ∈ aggregate_ohlcv [barJan4, barJan29] Rule.M,
        r.date = periodEndDate Rule.M p ∧
        ∀ r' ∈ aggregate_ohlcv [barJan4, barJan29] Rule.M,
          r'.date = periodEndDate Rule.M p → r' = r) ∧
    (∀ r ∈ aggregate_ohlcv [barJan4, barJan29] Rule.M,
      r.date = periodEndDate Rule.M (bucketOf Rule.M r.date)) :=
  aggregate_ohlcv_ordered_labels [barJan4, barJan29] Rule.M (by decide)

/-- Claim C3 counterexample: a stock with the single daily bar `barJan4`
(o=10, h=12, l=9, c=11) yields one monthly `AggregatedBar` whose four price
fields are not all equal, contradicting `open=high=low=close` as claimed. -/
theorem single_bar_not_flat :
    ∃ r ∈ aggregate_ohlcv [barJan4] Rule.M,
      ¬(r.open_ = r.high ∧ r.high = r.low ∧ r.low = r.close) := by
  decide

/-- Claim C3 (amended): a stock with exactly one daily bar yields, at every
granularity, exactly one aggregated bar whose open, high, low, close and
volume each equal the corresponding field of that single bar (so the four
prices coincide only when the bar's own prices do). -/
theorem aggregate_ohlcv_single_bar (b : DailyRow) (rule : Rule) :
    aggregate_ohlcv [b] rule =
      [{ date := periodEndDate rule (bucketOf rule b.date),
         open_ := some b.open_, high := some b.high, low := some b.low,
         close := some b.close, volume := some b.volume }] := by
  rw [aggregate_ohlcv_eq_resample]
  show (List.range (natListMax [bucketOf rule b.date] + 1 -
      natListMin [bucketOf rule b.date])).map
        (fun i => aggBucket [b] rule (natListMin [bucketOf rule b.date] + i)) = _
  have hmin : natListMin [bucketOf rule b.date] = bucketOf rule b.date := rfl
  have hmax : natListMax [bucketOf rule b.date] = bucketOf rule b.date := rfl
  rw [hmin, hmax]
  have h1 : bucketOf rule b.date + 1 - bucketOf rule b.date = 1 := by omega
  have hr1 : List.range 1 = [0] := rfl
  rw [h1, hr1, List.map_cons, List.map_nil, Nat.add_zero]
  have hb : bucketRows [b] rule (bucketOf rule b.date) = [b] := by
    simp [bucketRows, List.filter]
  simp [aggBucket, hb, listMax, listMin]

/-- Claim C2 (code bug): with daily bars only in January and March 2021, the
monthly resample emits a row for the empty February bucket — `NaN` prices but
volume `0`, which `dropna(how='all')` does not remove because pandas sums an
empty bin to `0` rather than `NaN`.  The comment in `aggregate_ohlcv`
("Drop any rows that are all empty") and the spec both promise no such row. -/
theorem empty_bucket_row_emitted :
    aggregate_ohlcv [barJan4, barMar1] Rule.M =
      [⟨⟨2021, 1, 31⟩, some 10, some 12, some 9, some 11, some 100⟩,
       ⟨⟨2021, 2, 28⟩, none, none, none, none, some 0⟩,
       ⟨⟨2021, 3, 31⟩, some 11, some 15, some 10, some 14, some 200⟩] ∧
    ∃ r ∈ aggregate_ohlcv [barJan4, barMar1] Rule.M,
      bucketRows [barJan4, barMar1] Rule.M (bucketOf Rule.M r.date) = [] := by
  constructor
  · decide
  · decide

/-- Claim C6: a stock with zero daily bars aggregates to the empty sequence at
every granularity; in the chart loop such a `(stock, timeframe)` combination
is skipped non-fatally (the run over the remaining combinations is exactly the
run without it), and no chart file for that ticker is ever produced. -/
theorem zero_bars_skip :
    (∀ rule, aggregate_ohlcv [] rule = []) ∧
    (∀ (master : List MRow) (fails : String → String → Bool) (t tf : String)
        (rule : Rule) (rest : List (String × String × Rule)),
      (∀ r ∈ master, r.ticker ≠ t) →
      runCombos master fails ((t, tf, rule) :: rest) =
        runCombos master fails rest) ∧
    (∀ (master : List MRow) (fails : String → String → Bool)
        (cs : List (String × String × Rule)) (t : String),
      (∀ r ∈ master, r.ticker ≠ t) →
      ∀ tf, (t, tf) ∉ (runCombos master fails cs).1) := by
  have hrows : ∀ (master : List MRow) (t : String),
      (∀ r ∈ master, r.ticker ≠ t) → stockRows master t = [] := by
    intro master t h
    unfold stockRows
    rw [List.filter_eq_nil_iff.mpr, List.map_nil]
    intro r hr
    simp only [Bool.not_eq_true, beq_eq_false_iff_ne, ne_eq]
    exact h r hr
  refine ⟨fun rule => rfl, ?_, ?_⟩
  · intro master fails t tf rule rest h
    have h0 : aggregate_ohlcv (stockRows master t) rule = [] := by
      rw [hrows master t h]
      rfl
    simp [runCombos, h0]
  · intro master fails cs t h tf
    induction cs with
    | nil => simp [runCombos]
    | cons c rest ih =>
      obtain ⟨t', tf', rule'⟩ := c
      by_cases hskip :
          (aggregate_ohlcv (stockRows master t') rule').isEmpty = true
      · simpa [runCombos, hskip] using ih
      · have ht' : t' ≠ t := by
          intro rfl'
          subst rfl'
          rw [hrows master t' h] at hskip
          simp [aggregate_ohlcv, resample_apply, dropna_all, reset_index,
            set_index] at hskip
        by_cases hfail : fails t' tf' = true
        · simp [runCombos, hskip, hfail]
        · simp only [runCombos, hskip, hfail]
          simp only [Bool.false_eq_true, if_false, if_neg hskip]
          intro hmem
          rcases List.mem_cons.mp hmem with heq | hmem'
          · exact ht' (congrArg Prod.fst heq).symm
          · exact ih hmem'

/-- Witness for claim C6: ticker ZZZ has no rows in the master frame
`[mRowA]`; its combination is skipped and yields no file. -/
theorem zero_bars_skip_witness :
    (∀ r ∈ [mRowA], r.ticker ≠ "ZZZ") ∧
    aggregate_ohlcv [] Rule.M = [] ∧
    runCombos [mRowA] (fun _ _ => false) [("ZZZ", "monthly", Rule.M)] =
      runCombos [mRowA] (fun _ _ => false) [] ∧
    ("ZZZ", "monthly") ∉
      (runCombos [mRowA] (fun _ _ => false) (allCombos [mRowA])).1 :=
  ⟨by decide, zero_bars_skip.1 Rule.M,
   zero_bars_skip.2.1 [mRowA] (fun _ _ => false) "ZZZ" "monthly" Rule.M []
     (by decide),
   zero_bars_skip.2.2 [mRowA] (fun _ _ => false) (allCombos [mRowA]) "ZZZ"
     (by decide) "monthly"⟩

/-- Claim C8 counterexample: with tickers AAA and BBB both holding data, a
rendering failure at (AAA, monthly) — the first combination — leaves the run
with zero chart files and an abnormal end, so BBB's charts are not produced;
with no failure, (BBB, monthly) is produced.  The claim that a failure "does
not halt processing of the remaining combinations" is false of the code:
`generate_all_charts` has no `try`/`except` around the chart call. -/
theorem render_failure_halts_example :
    (generate_all_charts true [mRowA, mRowB] failsAMonthly).1 = [] ∧
    (generate_all_charts true [mRowA, mRowB] failsAMonthly).2 = false ∧
    ("BBB", "monthly") ∈
      (generate_all_charts true [mRowA, mRowB] (fun _ _ => false)).1 := by
  refine ⟨by decide, by decide, by decide⟩

/-- Claim C8 (amended): a rendering failure for one (stock, timeframe)
combination halts processing of the remaining combinations — the run over
`l1 ++ c :: l2`, where no combination of `l1` fails and `c` is rendered and
raises, produces exactly the files of `l1` and stops; nothing of `l2` is
processed. -/
theorem render_failure_aborts_rest (master : List MRow)
    (fails : String → String → Bool) (l1 l2 : List (String × String × Rule))
    (t tf : String) (rule : Rule)
    (h1 : ∀ c ∈ l1, fails c.1 c.2.1 = false)
    (h2 : (aggregate_ohlcv (stockRows master t) rule).isEmpty = false)
    (h3 : fails t tf = true) :
    runCombos master fails (l1 ++ (t, tf, rule) :: l2) =
      ((runCombos master fails l1).1, false) := by
  induction l1 with
  | nil =>
    rw [List.nil_append]
    show runCombos master fails ((t, tf, rule) :: l2) = _
    simp [runCombos, h2, h3]
  | cons a l1' ih =>
    obtain ⟨ta, tfa, rla⟩ := a
    have hfa : fails ta tfa = false := h1 _ (List.mem_cons_self _ _)
    have ih' := ih (fun c hc => h1 c (List.mem_cons_of_mem _ hc))
    rw [List.cons_append]
    by_cases hsk : (aggregate_ohlcv (stockRows master ta) rla).isEmpty = true
    · simp only [runCombos, hsk, if_true]
      rw [ih']
    · simp only [runCombos, hsk, if_false, hfa, Bool.false_eq_true]
      rw [ih']

/-- Witness for the amended claim C8: the failing (AAA, monthly) combination
is first, so the run stops at once with no files. -/
theorem render_failure_aborts_rest_witness :
    runCombos [mRowA, mRowB] failsAMonthly
        ([] ++ ("AAA", "monthly", Rule.M) :: [("BBB", "monthly", Rule.M)]) =
      ((runCombos [mRowA, mRowB] failsAMonthly []).1, false) :=
  render_failure_aborts_rest [mRowA, mRowB] failsAMonthly []
    [("BBB", "monthly", Rule.M)] "AAA" "monthly" Rule.M
    (by decide) (by decide) (by decide)

/-- Claim C9: when the database file is missing, the fetcher returns leaving
the table untouched (no row inserted) and the chart stage returns with no
chart rendered. -/
theorem missing_database_no_work :
    (∀ (stocks : List (Nat × String)) (responses : String → Response)
        (db : List DBRow),
      fetch_and_insert_data false stocks responses db = db) ∧
    (∀ (master : List MRow) (fails : String → String → Bool),
      generate_all_charts false master fails = ([], true)) := by
  constructor
  · intro stocks responses db
    rfl
  · intro master fails
    simp [generate_all_charts]

/-! ### Helper lemmas: `INSERT OR IGNORE` and the fetcher loop -/

theorem insertOrIgnore_of_keyMem {db : List DBRow} {r : DBRow}
    (h : keyMem r.stock_id r.date db) : insertOrIgnore db r = db := by
  obtain ⟨x, hx, h1, h2⟩ := h
  unfold insertOrIgnore
  rw [if_pos]
  exact List.any_eq_true.mpr ⟨x, hx, by simp [h1, h2]⟩

theorem keyMem_insertOrIgnore {k : Nat} {d : Date} {db : List DBRow}
    (r : DBRow) (h : keyMem k d db) : keyMem k d (insertOrIgnore db r) := by
  unfold insertOrIgnore
  split
  · exact h
  · obtain ⟨x, hx, hk⟩ := h
    exact ⟨x, List.mem_append_left _ hx, hk⟩

theorem keyMem_self_insertOrIgnore (db : List DBRow) (r : DBRow) :
    keyMem r.stock_id r.date (insertOrIgnore db r) := by
  unfold insertOrIgnore
  split
  · next h =>
    obtain ⟨x, hx, hp⟩ := List.any_eq_true.mp h
    rw [Bool.and_eq_true, beq_iff_eq, beq_iff_eq] at hp
    exact ⟨x, hx, hp.1, hp.2⟩
  · exact ⟨r, List.mem_append_right _ (List.mem_singleton.mpr rfl), rfl, rfl⟩

theorem keyMem_executemany {k : Nat} {d : Date} {db : List DBRow}
    (rows : List DBRow) (h : keyMem k d db) :
    keyMem k d (executemany db rows) := by
  induction rows generalizing db with
  | nil => exact h
  | cons r rs ih =>
    show keyMem k d (executemany (insertOrIgnore db r) rs)
    exact ih (keyMem_insertOrIgnore r h)

theorem keyMem_executemany_self (db : List DBRow) (rows : List DBRow) :
    ∀ r ∈ rows, keyMem r.stock_id r.date (executemany db rows) := by
  induction rows generalizing db with
  | nil =>
    intro r hr
    simp at hr
  | cons a rs ih =>
    intro r hr
    rcases List.mem_cons.mp hr with rfl | hr'
    · show keyMem r.stock_id r.date (executemany (insertOrIgnore db r) rs)
      exact keyMem_executemany rs (keyMem_self_insertOrIgnore db r)
    · exact ih (insertOrIgnore db a) r hr'

theorem executemany_noop (rows : List DBRow) :
    ∀ db : List DBRow, (∀ r ∈ rows, keyMem r.stock_id r.date db) →
      executemany db rows = db := by
  induction rows with
  | nil =>
    intro db _
    rfl
  | cons a rs ih =>
    intro db h
    show executemany (insertOrIgnore db a) rs = db
    rw [insertOrIgnore_of_keyMem (h a (List.mem_cons_self _ _))]
    exact ih db (fun r hr => h r (List.mem_cons_of_mem _ hr))

/-- The per-stock loop body inserts exactly the response's cleaned rows. -/
theorem processStock_eq_executemany (db : List DBRow) (sid : Nat)
    (resp : Response) :
    processStock db sid resp = executemany db (respRows sid resp) := by
  cases resp with
  | failure => rfl
  | data rows =>
    by_cases h : rows.isEmpty = true <;>
      simp [processStock, respRows, h, executemany]

theorem keyMem_fetchStep {k : Nat} {d : Date} {db : List DBRow}
    (responses : String → Response) (st : Nat × String)
    (h : keyMem k d db) : keyMem k d (fetchStep responses db st) := by
  unfold fetchStep
  rw [processStock_eq_executemany]
  exact keyMem_executemany _ h

theorem keyMem_run {k : Nat} {d : Date} (responses : String → Response)
    (l : List (Nat × String)) :
    ∀ db : List DBRow, keyMem k d db →
      keyMem k d (l.foldl (fetchStep responses) db) := by
  induction l with
  | nil =>
    intro db h
    exact h
  | cons a l' ih =>
    intro db h
    rw [List.foldl_cons]
    exact ih _ (keyMem_fetchStep responses a h)

/-- After a full run, every row contributed by every roster stock's response
has its key present. -/
theorem run_contains (responses : String → Response)
    (l : List (Nat × String)) :
    ∀ db : List DBRow, ∀ st ∈ l, ∀ r ∈ respRows st.1 (responses st.2),
      keyMem r.stock_id r.date (l.foldl (fetchStep responses) db) := by
  induction l with
  | nil =>
    intro db st hst
    simp at hst
  | cons a l' ih =>
    intro db st hst r hr
    rw [List.foldl_cons]
    rcases List.mem_cons.mp hst with rfl | hst'
    · apply keyMem_run responses l'
      show keyMem r.stock_id r.date (fetchStep responses db st)
      unfold fetchStep
      rw [processStock_eq_executemany]
      exact keyMem_executemany_self db _ r hr
    · exact ih _ st hst' r hr

/-- A run all of whose rows are already keyed in the table is a no-op. -/
theorem run_noop (responses : String → Response) (l : List (Nat × String)) :
    ∀ db : List DBRow,
      (∀ st ∈ l, ∀ r ∈ respRows st.1 (responses st.2),
        keyMem r.stock_id r.date db) →
      l.foldl (fetchStep responses) db = db := by
  induction l with
  | nil =>
    intro db _
    rfl
  | cons a l' ih =>
    intro db h
    rw [List.foldl_cons]
    have ha : fetchStep responses db a = db := by
      unfold fetchStep
      rw [processStock_eq_executemany]
      exact executemany_noop _ db (h a (List.mem_cons_self _ _))
    rw [ha]
    exact ih db (fun st hst => h st (List.mem_cons_of_mem _ hst))

/-- With the database present, the fetcher is the fold of its per-stock
step over the roster. -/
theorem fetch_eq_foldl (stocks : List (Nat × String))
    (responses : String → Response) (db : List DBRow) :
    fetch_and_insert_data true stocks responses db =
      stocks.foldl (fetchStep responses) db := by
  cases stocks <;> rfl

theorem uniqueKeys_insertOrIgnore {db : List DBRow} (r : DBRow)
    (h : UniqueKeys db) : UniqueKeys (insertOrIgnore db r) := by
  unfold insertOrIgnore
  split
  · exact h
  · next hany =>
    have hno := List.any_eq_false.mp (Bool.not_eq_true _ ▸ hany)
    refine List.pairwise_append.mpr ⟨h, List.pairwise_singleton _ _, ?_⟩
    intro a ha b hb
    rw [List.mem_singleton] at hb
    subst hb
    intro ⟨h1, h2⟩
    exact hno a ha (by simp [h1, h2])

theorem uniqueKeys_executemany (rows : List DBRow) :
    ∀ db : List DBRow, UniqueKeys db → UniqueKeys (executemany db rows) := by
  induction rows with
  | nil =>
    intro db h
    exact h
  | cons a rs ih =>
    intro db h
    show UniqueKeys (executemany (insertOrIgnore db a) rs)
    exact ih _ (uniqueKeys_insertOrIgnore a h)

theorem uniqueKeys_run (responses : String → Response)
    (l : List (Nat × String)) :
    ∀ db : List DBRow, UniqueKeys db →
      UniqueKeys (l.foldl (fetchStep responses) db) := by
  induction l with
  | nil =>
    intro db h
    exact h
  | cons a l' ih =>
    intro db h
    rw [List.foldl_cons]
    apply ih
    show UniqueKeys (fetchStep responses db a)
    unfold fetchStep
    rw [processStock_eq_executemany]
    exact uniqueKeys_executemany _ db h

/-- Claim C5: inserting a daily row is a no-op when its (stock, date) key is
already present; re-running the fetcher with identical provider responses
changes nothing (idempotence); and the at-most-one-row-per-(stock, date)
invariant is preserved by every run. -/
theorem fetcher_idempotent_unique :
    (∀ (db : List DBRow) (r : DBRow),
      keyMem r.stock_id r.date db → insertOrIgnore db r = db) ∧
    (∀ (dbExists : Bool) (stocks : List (Nat × String))
        (responses : String → Response) (db : List DBRow),
      fetch_and_insert_data dbExists stocks responses
          (fetch_and_insert_data dbExists stocks responses db) =
        fetch_and_insert_data dbExists stocks responses db) ∧
    (∀ (dbExists : Bool) (stocks : List (Nat × String))
        (responses : String → Response) (db : List DBRow),
      UniqueKeys db →
      UniqueKeys (fetch_and_insert_data dbExists stocks responses db)) := by
  refine ⟨fun db r h => insertOrIgnore_of_keyMem h, ?_, ?_⟩
  · intro dbExists stocks responses db
    cases dbExists with
    | false => rfl
    | true =>
      rw [fetch_eq_foldl, fetch_eq_foldl]
      exact run_noop responses stocks _
        (fun st hst r hr => run_contains responses stocks db st hst r hr)
  · intro dbExists stocks responses db h
    cases dbExists with
    | false => exact h
    | true =>
      rw [fetch_eq_foldl]
      exact uniqueKeys_run responses stocks db h

/-- Witness for claim C5, at a one-row table and a one-stock roster. -/
theorem fetcher_idempotent_unique_witness :
    keyMem dbr0.stock_id dbr0.date [dbr0] ∧
    insertOrIgnore [dbr0] dbr0 = [dbr0] ∧
    fetch_and_insert_data true [(1, "AAA")] respW
        (fetch_and_insert_data true [(1, "AAA")] respW []) =
      fetch_and_insert_data true [(1, "AAA")] respW [] ∧
    UniqueKeys [] ∧
    UniqueKeys (fetch_and_insert_data true [(1, "AAA")] respW []) :=
  ⟨by decide,
   fetcher_idempotent_unique.1 [dbr0] dbr0 (by decide),
   fetcher_idempotent_unique.2.1 true [(1, "AAA")] respW [],
   List.Pairwise.nil,
   fetcher_idempotent_unique.2.2 true [(1, "AAA")] respW [] List.Pairwise.nil⟩

/-- Claim C7: a stock whose provider interaction raises contributes nothing,
and the run over the whole roster equals the run with that stock removed —
every stock after the failed one is still processed normally. -/
theorem stock_failure_continues (l1 l2 : List (Nat × String))
    (bad : Nat × String) (responses : String → Response) (db : List DBRow)
    (hbad : responses bad.2 = Response.failure) :
    fetch_and_insert_data true (l1 ++ bad :: l2) responses db =
      l2.foldl (fetchStep responses) (l1.foldl (fetchStep responses) db) ∧
    fetch_and_insert_data true (l1 ++ bad :: l2) responses db =
      fetch_and_insert_data true (l1 ++ l2) responses db := by
  have hstep : ∀ d : List DBRow, fetchStep responses d bad = d := by
    intro d
    unfold fetchStep
    rw [hbad]
    rfl
  have h1 : fetch_and_insert_data true (l1 ++ bad :: l2) responses db =
      l2.foldl (fetchStep responses) (l1.foldl (fetchStep responses) db) := by
    rw [fetch_eq_foldl, List.foldl_append, List.foldl_cons, hstep]
  refine ⟨h1, ?_⟩
  rw [h1, fetch_eq_foldl, List.foldl_append]

/-- Witness for claim C7: stock CCC raises; AAA before it and BBB after it
are both processed. -/
theorem stock_failure_continues_witness :
    fetch_and_insert_data true ([(1, "AAA")] ++ (3, "CCC") :: [(2, "BBB")])
        respW [] =
      [(2, "BBB")].foldl (fetchStep respW)
        ([(1, "AAA")].foldl (fetchStep respW) []) ∧
    fetch_and_insert_data true ([(1, "AAA")] ++ (3, "CCC") :: [(2, "BBB")])
        respW [] =
      fetch_and_insert_data true ([(1, "AAA")] ++ [(2, "BBB")]) respW [] :=
  stock_failure_continues [(1, "AAA")] [(2, "BBB")] (3, "CCC") respW []
    (by decide)

/-- Claim C10: `aggregate_ohlcv` does not mutate its input frame — after the
call the store still holds the same daily frame at the input position (only
the intermediate resampled frame is overwritten in place), and the returned
frame is the pure aggregation of the input, so repeated aggregation of the
same stock at different timeframes sees the same daily input. -/
theorem aggregate_ohlcv_no_mutation (h : List PFrame) (i : Nat)
    (df : List DailyRow) (rule : Rule)
    (hi : h[i]? = some (PFrame.daily df)) :
    ((aggregate_ohlcv_st h i rule).1)[i]? = some (PFrame.daily df) ∧
    ((aggregate_ohlcv_st h i rule).1)[(aggregate_ohlcv_st h i rule).2]? =
      some (PFrame.agg (aggregate_ohlcv df rule)) := by
  have hilen : i < h.length := (List.getElem?_eq_some.mp hi).1
  simp only [aggregate_ohlcv_st, hi]
  have hset : ∀ (l : List PFrame) (x y : PFrame),
      (l ++ [x]).set l.length y = l ++ [y] := by
    intro l x y
    rw [List.set_append]
    simp
  rw [hset]
  constructor
  · rw [List.getElem?_append_left, List.getElem?_append_left,
      List.getElem?_append_left hilen]
    · exact hi
    · rw [List.length_append]
      simp
      omega
    · rw [List.length_append, List.length_append]
      simp
      omega
  · rw [List.getElem?_concat_length]
    rfl

/-- Witness for claim C10, at a one-frame store holding `[barJan4]`. -/
theorem aggregate_ohlcv_no_mutation_witness :
    ((aggregate_ohlcv_st [PFrame.daily [barJan4]] 0 Rule.M).1)[0]? =
      some (PFrame.daily [barJan4]) ∧
    ((aggregate_ohlcv_st [PFrame.daily [barJan4]] 0
        Rule.M).1)[(aggregate_ohlcv_st [PFrame.daily [barJan4]] 0 Rule.M).2]? =
      some (PFrame.agg (aggregate_ohlcv [barJan4] Rule.M)) :=
  aggregate_ohlcv_no_mutation [PFrame.daily [barJan4]] 0 [barJan4] Rule.M rfl
